import Mathlib

/-!
Verification of the grid fusion and gap-filling pipeline in `task2.py`.

A grid is a 2D array of floating-point values where NaN marks a missing
measurement.  We embed a cell as `Option ℚ` (`none` = NaN/Missing,
`some v` = a valid value) and a grid as a list of rows.  This captures
NumPy's NaN comparison semantics exactly where the source relies on them:
`NaN < fmin` and `NaN > fmax` are both false, so `np.where` keeps NaN cells,
and `np.nanmean` excludes NaN from the averaging set.
-/

namespace Task2

abbrev Cell := Option ℚ

abbrev Grid := List (List Cell)

/-- Cell lookup at row `i`, column `j`; out-of-range positions read as
Missing (they carry no measurement). -/
def getCell (g : Grid) (i j : ℕ) : Cell :=
  (g.getD i []).getD j none

/-! ## Sanitizer: the filter step of `read_and_filter` (task2.py line 27)

`data = np.where((data < fmin) | (data > fmax), np.nan, data)`.
For a NaN cell both comparisons are false, so the cell is kept (stays NaN):
`none ↦ none`. -/

def sanitizeCell (fmin fmax : ℚ) (c : Cell) : Cell :=
  match c with
  | none => none
  | some v => if v < fmin ∨ v > fmax then none else some v

def sanitize (g : Grid) (fmin fmax : ℚ) : Grid :=
  g.map (fun row => row.map (sanitizeCell fmin fmax))

/-! ## Compositor: `simple_composite` (task2.py lines 52-69) -/

/-- Per-cell `np.nanmean(np.array([img1, img2]), axis=0)`: the mean of the
non-NaN entries among the two stacked values; all-NaN yields NaN (NumPy
emits a RuntimeWarning but returns NaN, not an error). -/
def nanmean2 (a b : Cell) : Cell :=
  match a, b with
  | some x, some y => some ((x + y) / 2)
  | some x, none => some x
  | none, some y => some y
  | none, none => none

/-- Modelled from the spec: the propagate-NaN minimum of two cells, the
reduction underlying the smoothing filter (`scipy.ndimage.minimum_filter`
is external library code, absent from src/); per the spec, any window
containing Missing yields Missing. -/
def nanMin2 (a b : Cell) : Cell :=
  match a, b with
  | some x, some y => some (min x y)
  | _, _ => none

/-- Modelled from the spec: the 2x2 window of `minimum_filter(fimg, size=2)`
at output position `(i, j)` covers input positions `(i-1..i) × (j-1..j)`
(even-size footprint with origin 0), with the reflect boundary policy
mapping index `-1` to index `0` — which truncated ℕ subtraction realises. -/
def minFilterCell (g : Grid) (i j : ℕ) : Cell :=
  nanMin2 (nanMin2 (getCell g (i - 1) (j - 1)) (getCell g (i - 1) j))
          (nanMin2 (getCell g i (j - 1)) (getCell g i j))

def minFilterRow (g : Grid) (i : ℕ) : ℕ → List Cell → List Cell
  | _, [] => []
  | j, _ :: cs => minFilterCell g i j :: minFilterRow g i (j + 1) cs

def minFilterRows (g : Grid) : ℕ → Grid → Grid
  | _, [] => []
  | i, row :: rows => minFilterRow g i 0 row :: minFilterRows g (i + 1) rows

/-- Modelled from the spec: `scipy.ndimage.minimum_filter(·, size=2)` on a
2D grid, sliding the 2x2 window with propagate-NaN minimum and reflect
boundary. -/
def minimum_filter2 (g : Grid) : Grid :=
  minFilterRows g 0 g

/-- `simple_composite(img1, img2, smooth)` (task2.py lines 52-69):
`fimg = np.nanmean(np.array([img1, img2]), axis=0)`, then the minimum
filter when `smooth` is set, else `fimg`. -/
def simple_composite (img1 img2 : Grid) (smooth : Bool) : Grid :=
  let fimg := List.zipWith (List.zipWith nanmean2) img1 img2
  if smooth then minimum_filter2 fimg else fimg

/-! ## GapFiller: `fill_missing` (task2.py lines 72-98)

The source delegates the per-point estimation to
`scipy.interpolate.griddata((valid_x, valid_y), valid_values, queries,
method)`, external library code absent from src/.  Its behaviour is
modelled from the spec: `linear`/`cubic` are defined exactly on the convex
hull of the valid sample positions (Missing outside), `nearest` assigns
the value of the closest valid sample and is total, and an empty valid
sample set is the fatal NoValidSamples condition. -/

/-- An interpolation method of `griddata`: `linear`, `nearest` or `cubic`. -/
inductive Method where
  | linear
  | nearest
  | cubic
deriving DecidableEq

/-- GapFiller invoked on a grid with zero Valid cells: fatal, nothing to
interpolate from. -/
inductive FillError where
  | NoValidSamples
deriving DecidableEq

/-- A valid sample: a grid position `(i, j)` (as a point of the rational
plane) together with the value measured there. -/
abbrev Sample := (ℚ × ℚ) × ℚ

/-- The valid samples of one row, positions starting at `(i, j)`. -/
def rowSamples (i : ℕ) : ℕ → List Cell → List Sample
  | _, [] => []
  | j, none :: cs => rowSamples i (j + 1) cs
  | j, some v :: cs => (((i : ℚ), (j : ℚ)), v) :: rowSamples i (j + 1) cs

/-- The valid samples of the rows starting at row index `i`. -/
def gridSamples : ℕ → Grid → List Sample
  | _, [] => []
  | i, row :: rows => rowSamples i 0 row ++ gridSamples (i + 1) rows

/-- `(valid_x, valid_y, valid_values)` of task2.py lines 89-91: the
(position, value) pair of every non-NaN cell, in row-major order. -/
def validSamples (g : Grid) : List Sample :=
  gridSamples 0 g

/-- The number of Valid (non-Missing) cells of a grid. -/
def countValid (g : Grid) : ℕ :=
  (validSamples g).length

/-- The number of Missing (NaN) cells of a grid. -/
def countMissing (g : Grid) : ℕ :=
  (g.map (fun row => row.countP (fun c => c.isNone))).sum

def vsub (u v : ℚ × ℚ) : ℚ × ℚ := (u.1 - v.1, u.2 - v.2)

def cross (u v : ℚ × ℚ) : ℚ := u.1 * v.2 - u.2 * v.1

def dot (u v : ℚ × ℚ) : ℚ := u.1 * v.1 + u.2 * v.2

/-- Squared Euclidean distance between two points; comparing squared
distances orders points exactly as the Euclidean distance does. -/
def sqDist (p q : ℚ × ℚ) : ℚ :=
  (p.1 - q.1) ^ 2 + (p.2 - q.2) ^ 2

/-- Modelled from the spec: linear interpolation along the segment from
`a` (value `va`) to `b` (value `vb`), defined exactly on the segment. -/
def segInterp (a : ℚ × ℚ) (va : ℚ) (b : ℚ × ℚ) (vb : ℚ) (p : ℚ × ℚ) : Option ℚ :=
  if a = b then (if p = a then some va else none)
  else
    let d := vsub b a
    let w := vsub p a
    if cross d w = 0 ∧ 0 ≤ dot w d ∧ dot w d ≤ dot d d then
      some (va + dot w d / dot d d * (vb - va))
    else none

/-- Modelled from the spec: barycentric interpolation of `p` inside the
(possibly degenerate) triangle of samples `sa sb sc`; `none` when `p` lies
outside it. -/
def triInterp (sa sb sc : Sample) (p : ℚ × ℚ) : Option ℚ :=
  let a := sa.1; let va := sa.2
  let b := sb.1; let vb := sb.2
  let c := sc.1; let vc := sc.2
  let det := cross (vsub b a) (vsub c a)
  if det = 0 then
    ((segInterp a va b vb p).orElse fun _ =>
      ((segInterp b vb c vc p).orElse fun _ => segInterp a va c vc p))
  else
    let gamma := cross (vsub b a) (vsub p a) / det
    let beta := cross (vsub p a) (vsub c a) / det
    let alpha := 1 - beta - gamma
    if 0 ≤ alpha ∧ 0 ≤ beta ∧ 0 ≤ gamma then
      some (alpha * va + beta * vb + gamma * vc)
    else none

/-- Modelled from the spec: `griddata` with `method='linear'` — barycentric
interpolation within the convex hull of the valid sample positions
(by Caratheodory, `p` is in the hull iff some triple of samples spans a
possibly-degenerate triangle containing it), Missing outside the hull.
The spec does not fix which containing triangle supplies the barycentric
weights; the model takes the first in sample order. -/
def linearAt (samples : List Sample) (p : ℚ × ℚ) : Option ℚ :=
  samples.findSome? fun sa =>
    samples.findSome? fun sb =>
      samples.findSome? fun sc => triInterp sa sb sc p

/-- The value of the best sample so far or of a strictly closer one in the
remaining list (first minimum wins ties, a deterministic choice the spec
leaves open). -/
def nearestFrom (p : ℚ × ℚ) : Sample → List Sample → ℚ
  | best, [] => best.2
  | best, s :: rest =>
    if sqDist p s.1 < sqDist p best.1 then nearestFrom p s rest
    else nearestFrom p best rest

/-- Modelled from the spec: `griddata` with `method='nearest'` — the value
of the closest valid sample by Euclidean distance; always produces a value
when the sample set is nonempty. -/
def nearestAt (samples : List Sample) (p : ℚ × ℚ) : Option ℚ :=
  match samples with
  | [] => none
  | s :: rest => some (nearestFrom p s rest)

/-- Modelled from the spec: `griddata` with `method='cubic'` — the spec
fixes only its domain (the convex hull, the same boundary limitation as
linear), not the values of the higher-order surface fit; the model reuses
the hull-limited barycentric evaluation, so only its domain is faithful. -/
def cubicAt (samples : List Sample) (p : ℚ × ℚ) : Option ℚ :=
  linearAt samples p

/-- Modelled from the spec: the per-query-point estimate of
`scipy.interpolate.griddata`, dispatched on the method. -/
def interpolateAt (m : Method) (samples : List Sample) (p : ℚ × ℚ) : Option ℚ :=
  match m with
  | Method.linear => linearAt samples p
  | Method.nearest => nearestAt samples p
  | Method.cubic => cubicAt samples p

/-- One cell of the write-back `data[missing_indices] = interpolated_values`
(task2.py line 96): a valid cell is untouched, a Missing cell receives the
interpolated estimate at its own position (which may itself be Missing,
when the method leaves the point unresolved). -/
def fillCell (samples : List Sample) (m : Method) (i j : ℕ) (c : Cell) : Cell :=
  match c with
  | some v => some v
  | none => interpolateAt m samples ((i : ℚ), (j : ℚ))

def fillRow (samples : List Sample) (m : Method) (i : ℕ) : ℕ → List Cell → List Cell
  | _, [] => []
  | j, c :: cs => fillCell samples m i j c :: fillRow samples m i (j + 1) cs

def fillRows (samples : List Sample) (m : Method) : ℕ → Grid → Grid
  | _, [] => []
  | i, row :: rows => fillRow samples m i 0 row :: fillRows samples m (i + 1) rows

/-- `fill_missing(data, method)` (task2.py lines 72-98): find the Missing
positions, gather the valid samples, interpolate the Missing positions
from them, write the estimates back, return the grid.  Modelled from the
spec: `griddata` signals NoValidSamples when the valid sample set is empty
(the source calls it unconditionally and the exception propagates). -/
def fill_missing (data : Grid) (m : Method) : Except FillError Grid :=
  let samples := validSamples data
  if samples.isEmpty then Except.error FillError.NoValidSamples
  else Except.ok (fillRows samples m 0 data)

/-! ## Sanitizer lemmas -/

theorem map_sanitizeCell_getD (fmin fmax : ℚ) :
    ∀ (row : List Cell) (j : ℕ),
      (row.map (sanitizeCell fmin fmax)).getD j none
        = sanitizeCell fmin fmax (row.getD j none)
  | [], j => by simp [sanitizeCell]
  | c :: cs, 0 => by simp
  | c :: cs, j + 1 => by
      simpa using map_sanitizeCell_getD fmin fmax cs j

theorem getCell_sanitize (g : Grid) (fmin fmax : ℚ) (i j : ℕ) :
    getCell (sanitize g fmin fmax) i j
      = sanitizeCell fmin fmax (getCell g i j) := by
  induction g generalizing i with
  | nil => simp [getCell, sanitize, sanitizeCell]
  | cons row rows ih =>
    cases i with
    | zero => simpa [getCell, sanitize] using map_sanitizeCell_getD fmin fmax row j
    | succ i => simpa [getCell, sanitize] using ih i

theorem sanitizeCell_idem (fmin fmax : ℚ) (c : Cell) :
    sanitizeCell fmin fmax (sanitizeCell fmin fmax c) = sanitizeCell fmin fmax c := by
  cases c with
  | none => rfl
  | some v =>
    by_cases h : v < fmin ∨ v > fmax <;> simp [sanitizeCell, h]

/-- C3: for every grid `G` and range `[fmin, fmax]`, every non-Missing cell
`v` of `sanitize(G, fmin, fmax)` satisfies `fmin ≤ v ≤ fmax` (cells equal
to `fmin` or `fmax` are kept), and every cell of the input whose value lies
in the range is carried to the output unchanged. -/
theorem sanitize_range_sound (g : Grid) (fmin fmax : ℚ) (i j : ℕ) :
    (∀ v : ℚ, getCell (sanitize g fmin fmax) i j = some v → fmin ≤ v ∧ v ≤ fmax) ∧
    (∀ v : ℚ, getCell g i j = some v → fmin ≤ v → v ≤ fmax →
      getCell (sanitize g fmin fmax) i j = getCell g i j) := by
  rw [getCell_sanitize]
  constructor
  · intro v hv
    cases hc : getCell g i j with
    | none => rw [hc] at hv; simp [sanitizeCell] at hv
    | some w =>
      rw [hc] at hv
      by_cases h : w < fmin ∨ w > fmax
      · simp [sanitizeCell, h] at hv
      · simp [sanitizeCell, h] at hv
        push_neg at h
        obtain rfl := hv
        exact h
  · intro v hv h1 h2
    rw [hv]
    have h : ¬(v < fmin ∨ v > fmax) := by push_neg; exact ⟨h1, h2⟩
    simp [sanitizeCell, h]

/-- C3 witness: at `G = [[some 10, some 100]]` with range `[-32, 64]`, the
in-range cell `10` is carried through unchanged. -/
theorem sanitize_range_sound_w :
    getCell (sanitize [[some 10, some 100]] (-32) 64) 0 0
      = getCell ([[some 10, some 100]] : Grid) 0 0 := by
  have h := sanitize_range_sound [[some 10, some 100]] (-32) 64 0 0
  exact h.2 10 rfl (by norm_num) (by norm_num)

/-- C7: sanitizing twice equals sanitizing once (idempotence). -/
theorem sanitize_idem (g : Grid) (fmin fmax : ℚ) :
    sanitize (sanitize g fmin fmax) fmin fmax = sanitize g fmin fmax := by
  unfold sanitize
  rw [List.map_map]
  apply List.map_congr_left
  intro row _
  simp only [Function.comp_apply]
  rw [List.map_map]
  apply List.map_congr_left
  intro c _
  exact sanitizeCell_idem fmin fmax c

/-- C10: a Missing (NaN) cell stays Missing through sanitization — NaN
fails both range comparisons, so `np.where` keeps it as NaN. -/
theorem sanitize_keeps_missing (g : Grid) (fmin fmax : ℚ) (i j : ℕ)
    (h : getCell g i j = none) :
    getCell (sanitize g fmin fmax) i j = none := by
  rw [getCell_sanitize, h]
  rfl

/-- C10 witness: the Missing centre cell of a 1x3 row stays Missing. -/
theorem sanitize_keeps_missing_w :
    getCell (sanitize [[some 1, none, some 3]] (-32) 64) 0 1 = none :=
  sanitize_keeps_missing [[some 1, none, some 3]] (-32) 64 0 1 rfl

/-! ## Compositor lemmas -/

theorem zipWith_nanmean2_getD :
    ∀ (ra rb : List Cell) (j : ℕ), j < ra.length → j < rb.length →
      (List.zipWith nanmean2 ra rb).getD j none
        = nanmean2 (ra.getD j none) (rb.getD j none)
  | [], _, j, hja, _ => by simp at hja
  | _ :: _, [], j, _, hjb => by simp at hjb
  | a :: ra, b :: rb, 0, _, _ => by simp
  | a :: ra, b :: rb, j + 1, hja, hjb => by
      simpa using zipWith_nanmean2_getD ra rb j
        (by simpa using Nat.lt_of_succ_lt_succ hja)
        (by simpa using Nat.lt_of_succ_lt_succ hjb)

theorem getCell_compositeRaw :
    ∀ (A B : Grid) (i j : ℕ), i < A.length → i < B.length →
      j < (A.getD i []).length → j < (B.getD i []).length →
      getCell (List.zipWith (List.zipWith nanmean2) A B) i j
        = nanmean2 (getCell A i j) (getCell B i j)
  | [], _, i, _, hia, _, _, _ => by simp at hia
  | _ :: _, [], i, _, _, hib, _, _ => by simp at hib
  | ra :: A, rb :: B, 0, j, _, _, hja, hjb => by
      simpa [getCell] using zipWith_nanmean2_getD ra rb j (by simpa using hja) (by simpa using hjb)
  | ra :: A, rb :: B, i + 1, j, hia, hib, hja, hjb => by
      simpa [getCell] using getCell_compositeRaw A B i j
        (by simpa using Nat.lt_of_succ_lt_succ hia)
        (by simpa using Nat.lt_of_succ_lt_succ hib)
        (by simpa [List.getD] using hja)
        (by simpa [List.getD] using hjb)

/-- C2: per-cell behaviour of the unsmoothed compositor: both valid gives
the arithmetic mean, exactly one valid gives that value, both Missing gives
Missing; and compositing two all-Missing 2x2 grids yields the all-Missing
2x2 grid (the call returns, it does not fail — NumPy only warns on an
all-NaN mean slice). -/
theorem composite_cell_cases (A B : Grid) (i j : ℕ)
    (hiA : i < A.length) (hiB : i < B.length)
    (hjA : j < (A.getD i []).length) (hjB : j < (B.getD i []).length) :
    (∀ x y : ℚ, getCell A i j = some x → getCell B i j = some y →
      getCell (simple_composite A B false) i j = some ((x + y) / 2)) ∧
    (∀ x : ℚ, getCell A i j = some x → getCell B i j = none →
      getCell (simple_composite A B false) i j = some x) ∧
    (∀ y : ℚ, getCell A i j = none → getCell B i j = some y →
      getCell (simple_composite A B false) i j = some y) ∧
    (getCell A i j = none → getCell B i j = none →
      getCell (simple_composite A B false) i j = none) ∧
    simple_composite [[none, none], [none, none]] [[none, none], [none, none]] false
      = [[none, none], [none, none]] := by
  have hcell : getCell (simple_composite A B false) i j
      = nanmean2 (getCell A i j) (getCell B i j) := by
    simpa [simple_composite] using getCell_compositeRaw A B i j hiA hiB hjA hjB
  refine ⟨?_, ?_, ?_, ?_, ?_⟩
  · intro x y hx hy; rw [hcell, hx, hy]; rfl
  · intro x hx hy; rw [hcell, hx, hy]; rfl
  · intro y hx hy; rw [hcell, hx, hy]; rfl
  · intro hx hy; rw [hcell, hx, hy]; rfl
  · rfl

/-- C2 witness: compositing `[[some 1]]` with `[[some 3]]` averages the
two valid cells to `2`. -/
theorem composite_cell_cases_w :
    getCell (simple_composite [[some 1]] [[some 3]] false) 0 0 = some 2 := by
  have h := composite_cell_cases [[some 1]] [[some 3]] 0 0
    (by decide) (by decide) (by decide) (by decide)
  have h2 := h.1 1 3 rfl rfl
  norm_num at h2
  exact h2

theorem nanmean2_comm (a b : Cell) : nanmean2 a b = nanmean2 b a := by
  cases a <;> cases b <;> simp [nanmean2, add_comm]

theorem zipWith_nanmean2_comm :
    ∀ (ra rb : List Cell), List.zipWith nanmean2 ra rb = List.zipWith nanmean2 rb ra
  | [], rb => by cases rb <;> simp
  | _ :: _, [] => by simp
  | a :: ra, b :: rb => by
      simp [zipWith_nanmean2_comm ra rb, nanmean2_comm a b]

theorem zipWith2_nanmean2_comm :
    ∀ (A B : Grid),
      List.zipWith (List.zipWith nanmean2) A B = List.zipWith (List.zipWith nanmean2) B A
  | [], B => by cases B <;> simp
  | _ :: _, [] => by simp
  | ra :: A, rb :: B => by
      simp [zipWith2_nanmean2_comm A B, zipWith_nanmean2_comm ra rb]

/-- C8: the unsmoothed compositor is commutative in its two grid arguments
(here stated, as the spec does, for same-shape all-valid inputs; the mean
is order-independent). -/
theorem composite_comm (A B : Grid)
    (_hshape : A.length = B.length)
    (_hA : countMissing A = 0) (_hB : countMissing B = 0) :
    simple_composite A B false = simple_composite B A false := by
  simp [simple_composite, zipWith2_nanmean2_comm A B]

/-- C8 witness: a concrete all-valid same-shape pair. -/
theorem composite_comm_w :
    simple_composite [[some 1, some 2]] [[some 3, some 4]] false
      = simple_composite [[some 3, some 4]] [[some 1, some 2]] false :=
  composite_comm [[some 1, some 2]] [[some 3, some 4]] rfl rfl rfl

/-! ## Minimum-filter lemmas -/

theorem minFilterRow_getD (g : Grid) (i : ℕ) :
    ∀ (cs : List Cell) (j0 k : ℕ), k < cs.length →
      (minFilterRow g i j0 cs).getD k none = minFilterCell g i (j0 + k)
  | [], j0, k, hk => by simp at hk
  | _ :: cs, j0, 0, _ => by simp [minFilterRow]
  | _ :: cs, j0, k + 1, hk => by
      have := minFilterRow_getD g i cs (j0 + 1) k (by simpa using Nat.lt_of_succ_lt_succ hk)
      simpa [minFilterRow, Nat.add_assoc, Nat.add_comm 1 k] using this

theorem minFilterRows_getD (g : Grid) :
    ∀ (rows : Grid) (i0 i : ℕ), i < rows.length →
      (minFilterRows g i0 rows).getD i [] = minFilterRow g (i0 + i) 0 (rows.getD i [])
  | [], i0, i, hi => by simp at hi
  | row :: rows, i0, 0, _ => by simp [minFilterRows]
  | row :: rows, i0, i + 1, hi => by
      have := minFilterRows_getD g rows (i0 + 1) i (by simpa using Nat.lt_of_succ_lt_succ hi)
      simpa [minFilterRows, Nat.add_assoc, Nat.add_comm 1 i] using this

theorem getCell_minimum_filter2 (g : Grid) (i j : ℕ)
    (hi : i < g.length) (hj : j < (g.getD i []).length) :
    getCell (minimum_filter2 g) i j = minFilterCell g i j := by
  unfold minimum_filter2 getCell
  rw [minFilterRows_getD g g 0 i hi]
  simpa using minFilterRow_getD g i (g.getD i []) 0 j hj

theorem nanMin2_eq_none_left (b : Cell) : nanMin2 none b = none := by
  cases b <;> rfl

theorem nanMin2_eq_none_right (a : Cell) : nanMin2 a none = none := by
  cases a <;> rfl

/-- C4: in the smoothed composite, every output cell whose 2x2 filter
window (input positions `(i-1..i) × (j-1..j)`, reflect boundary) contains
at least one Missing cell of the unsmoothed composite is itself Missing:
the minimum filter propagates Missing through every window containing it. -/
theorem composite_smooth_propagates_missing (A B : Grid) (i j : ℕ)
    (hi : i < (simple_composite A B false).length)
    (hj : j < ((simple_composite A B false).getD i []).length)
    (hmiss : getCell (simple_composite A B false) (i - 1) (j - 1) = none ∨
             getCell (simple_composite A B false) (i - 1) j = none ∨
             getCell (simple_composite A B false) i (j - 1) = none ∨
             getCell (simple_composite A B false) i j = none) :
    getCell (simple_composite A B true) i j = none := by
  have hsm : simple_composite A B true
      = minimum_filter2 (simple_composite A B false) := by
    simp [simple_composite]
  rw [hsm, getCell_minimum_filter2 _ i j hi hj]
  unfold minFilterCell
  rcases hmiss with h | h | h | h <;>
    simp [h, nanMin2_eq_none_left, nanMin2_eq_none_right, nanMin2]

/-- C4 witness: a Missing cell of the unsmoothed composite erases its whole
2x2 neighbourhood in the smoothed composite. -/
theorem composite_smooth_propagates_missing_w :
    getCell (simple_composite [[some 1, some 2], [some 3, none]]
                              [[some 1, some 2], [some 3, none]] true) 1 1 = none := by
  have h := composite_smooth_propagates_missing
    [[some 1, some 2], [some 3, none]] [[some 1, some 2], [some 3, none]] 1 1
    (by decide) (by decide)
  apply h
  right; right; right
  rfl

/-! ## GapFiller lemmas -/

theorem fillRow_getD (s : List Sample) (m : Method) (i : ℕ) :
    ∀ (cs : List Cell) (j0 k : ℕ), k < cs.length →
      (fillRow s m i j0 cs).getD k none = fillCell s m i (j0 + k) (cs.getD k none)
  | [], j0, k, hk => by simp at hk
  | _ :: cs, j0, 0, _ => by simp [fillRow]
  | _ :: cs, j0, k + 1, hk => by
      have := fillRow_getD s m i cs (j0 + 1) k (by simpa using Nat.lt_of_succ_lt_succ hk)
      simpa [fillRow, Nat.add_assoc, Nat.add_comm 1 k] using this

theorem fillRows_getD (s : List Sample) (m : Method) :
    ∀ (rows : Grid) (i0 i : ℕ),
      (fillRows s m i0 rows).getD i [] = fillRow s m (i0 + i) 0 (rows.getD i [])
  | [], i0, i => by simp [fillRows, fillRow]
  | row :: rows, i0, 0 => by simp [fillRows]
  | row :: rows, i0, i + 1 => by
      have := fillRows_getD s m rows (i0 + 1) i
      simpa [fillRows, Nat.add_assoc, Nat.add_comm 1 i] using this

/-- A position holding a valid value is in range. -/
theorem getCell_some_in_range (g : Grid) (i j : ℕ) (v : ℚ)
    (h : getCell g i j = some v) :
    i < g.length ∧ j < (g.getD i []).length := by
  constructor
  · by_contra hi
    push_neg at hi
    rw [getCell, List.getD_eq_default _ _ hi] at h
    simp at h
  · by_contra hj
    push_neg at hj
    rw [getCell, List.getD_eq_default _ _ hj] at h
    simp at h

theorem getCell_fillRows (s : List Sample) (m : Method) (g : Grid) (i j : ℕ)
    (hj : j < (g.getD i []).length) :
    getCell (fillRows s m 0 g) i j = fillCell s m i j (getCell g i j) := by
  unfold getCell
  rw [fillRows_getD s m g 0 i]
  simpa using fillRow_getD s m i (g.getD i []) 0 j hj

/-- C9: for every grid with at least one Valid cell and every method, the
fill returns a grid (the same buffer, written in place in the source) in
which every position that was Valid in the input holds its original value
unchanged — only previously-Missing positions are written. -/
theorem fill_preserves_valid (g : Grid) (m : Method)
    (h : 1 ≤ countValid g) :
    ∃ g2, fill_missing g m = Except.ok g2 ∧
      ∀ (i j : ℕ) (v : ℚ), getCell g i j = some v → getCell g2 i j = some v := by
  have hne : validSamples g ≠ [] := by
    intro hnil
    rw [countValid, hnil] at h
    simp at h
  refine ⟨fillRows (validSamples g) m 0 g, ?_, ?_⟩
  · simp [fill_missing, List.isEmpty_iff, hne]
  · intro i j v hv
    have hrange := getCell_some_in_range g i j v hv
    rw [getCell_fillRows _ m g i j hrange.2, hv]
    rfl

/-- C9 witness: filling `[[some 1, none]]` keeps the valid cell `1`. -/
theorem fill_preserves_valid_w :
    ∃ g2, fill_missing [[some 1, none]] Method.linear = Except.ok g2 ∧
      ∀ (i j : ℕ) (v : ℚ), getCell [[some 1, none]] i j = some v →
        getCell g2 i j = some v :=
  fill_preserves_valid [[some 1, none]] Method.linear (by decide)

/-- C5: a grid with zero Valid cells (for example a 1x1 grid holding a
single Missing cell) makes the fill signal NoValidSamples, for every
method — there is nothing to interpolate from. -/
theorem fill_no_valid_samples (g : Grid) (m : Method)
    (h : countValid g = 0) :
    fill_missing g m = Except.error FillError.NoValidSamples := by
  have hnil : validSamples g = [] := List.length_eq_zero.mp h
  simp [fill_missing, hnil]

/-- C5 witness: the 1x1 all-Missing grid of the spec's boundary scenario. -/
theorem fill_no_valid_samples_w :
    fill_missing [[none]] Method.linear = Except.error FillError.NoValidSamples :=
  fill_no_valid_samples [[none]] Method.linear rfl

theorem fillRow_of_no_missing (s : List Sample) (m : Method) (i : ℕ) :
    ∀ (cs : List Cell) (j : ℕ), cs.countP (fun c => c.isNone) = 0 →
      fillRow s m i j cs = cs
  | [], _, _ => rfl
  | none :: cs, j, hc => by
      simp [List.countP_cons] at hc
  | some v :: cs, j, hc => by
      have hc2 : cs.countP (fun c => c.isNone) = 0 := by
        simpa [List.countP_cons] using hc
      simp [fillRow, fillCell, fillRow_of_no_missing s m i cs (j + 1) hc2]

theorem fillRows_of_no_missing (s : List Sample) (m : Method) :
    ∀ (g : Grid) (i0 : ℕ), countMissing g = 0 → fillRows s m i0 g = g
  | [], _, _ => rfl
  | row :: rows, i0, hc => by
      rw [countMissing, List.map_cons, List.sum_cons] at hc
      have hrow : row.countP (fun c => c.isNone) = 0 := (Nat.add_eq_zero.mp hc).1
      have hrest : countMissing rows = 0 := (Nat.add_eq_zero.mp hc).2
      simp [fillRows, fillRow_of_no_missing s m i0 row 0 hrow,
        fillRows_of_no_missing s m rows (i0 + 1) hrest]

/-- C6 counterexample: the claim quantifies over every grid with no
Missing cells, but on the empty grid (no cells at all, hence no Missing
cells and no Valid samples) the fill signals NoValidSamples instead of
returning the grid — the valid sample set is empty, and the source calls
the interpolator unconditionally. -/
theorem fill_identity_cex :
    countMissing ([] : Grid) = 0 ∧
      fill_missing ([] : Grid) Method.linear ≠ Except.ok ([] : Grid) := by
  constructor
  · rfl
  · intro h
    simp [fill_missing, validSamples, gridSamples] at h

/-- C6 amended: for every grid with no Missing cells and at least one cell
(equivalently, at least one Valid cell) and every method, the fill returns
its input unchanged. -/
theorem fill_identity_on_full (g : Grid) (m : Method)
    (hfull : countMissing g = 0) (hsome : 1 ≤ countValid g) :
    fill_missing g m = Except.ok g := by
  have hne : validSamples g ≠ [] := by
    intro hnil
    rw [countValid, hnil] at hsome
    simp at hsome
  simp [fill_missing, List.isEmpty_iff, hne,
    fillRows_of_no_missing (validSamples g) m g 0 hfull]

/-- C6 witness: a 1x2 fully-valid grid is returned unchanged by a cubic
fill. -/
theorem fill_identity_on_full_w :
    fill_missing [[some 1, some 2]] Method.cubic = Except.ok [[some 1, some 2]] :=
  fill_identity_on_full [[some 1, some 2]] Method.cubic rfl (by decide)

/-! ## Two-pass completeness lemmas -/

theorem nearestAt_isSome (s : List Sample) (p : ℚ × ℚ) (h : s ≠ []) :
    (nearestAt s p).isSome := by
  cases s with
  | nil => exact absurd rfl h
  | cons a rest => simp [nearestAt]

theorem fillRow_nearest_total (s : List Sample) (h : s ≠ []) (i : ℕ) :
    ∀ (cs : List Cell) (j : ℕ),
      (fillRow s Method.nearest i j cs).countP (fun c => c.isNone) = 0
  | [], _ => rfl
  | c :: cs, j => by
      have hrest := fillRow_nearest_total s h i cs (j + 1)
      cases c with
      | some v => simpa [fillRow, fillCell, List.countP_cons] using hrest
      | none =>
        have hs := nearestAt_isSome s ((i : ℚ), (j : ℚ)) h
        obtain ⟨q, hq⟩ := Option.isSome_iff_exists.mp hs
        simpa [fillRow, fillCell, interpolateAt, List.countP_cons, hq] using hrest

theorem fillRows_nearest_total (s : List Sample) (h : s ≠ []) :
    ∀ (g : Grid) (i0 : ℕ), countMissing (fillRows s Method.nearest i0 g) = 0
  | [], _ => rfl
  | row :: rows, i0 => by
      simp [fillRows, countMissing, fillRow_nearest_total s h i0 row 0]
      simpa [countMissing] using fillRows_nearest_total s h rows (i0 + 1)

theorem rowSamples_fillRow_ne_nil (s : List Sample) (m : Method) (i : ℕ) :
    ∀ (cs : List Cell) (j : ℕ), rowSamples i j cs ≠ [] →
      rowSamples i j (fillRow s m i j cs) ≠ []
  | [], j, h => h
  | some v :: cs, j, _ => by
      simp [fillRow, fillCell, rowSamples]
  | none :: cs, j, h => by
      have hrest : rowSamples i (j + 1) cs ≠ [] := by
        simpa [rowSamples] using h
      cases hc : interpolateAt m s ((i : ℚ), (j : ℚ)) with
      | none =>
        simpa [fillRow, fillCell, hc, rowSamples] using
          rowSamples_fillRow_ne_nil s m i cs (j + 1) hrest
      | some q => simp [fillRow, fillCell, hc, rowSamples]

theorem gridSamples_fillRows_ne_nil (s : List Sample) (m : Method) :
    ∀ (g : Grid) (i0 : ℕ), gridSamples i0 g ≠ [] →
      gridSamples i0 (fillRows s m i0 g) ≠ []
  | [], _, h => h
  | row :: rows, i0, h => by
      rw [gridSamples] at h
      rw [fillRows, gridSamples]
      intro hnil
      rw [List.append_eq_nil] at hnil
      by_cases hrow : rowSamples i0 0 row = []
      · have hrest : gridSamples (i0 + 1) rows ≠ [] := by
          intro hr
          exact h (by rw [hrow, hr]; rfl)
        exact gridSamples_fillRows_ne_nil s m rows (i0 + 1) hrest hnil.2
      · exact rowSamples_fillRow_ne_nil s m i0 row 0 hrow hnil.1

/-- C1: for every grid with at least one Valid cell, a linear pass followed
by a nearest pass on its result leaves no Missing cell: the linear pass may
leave positions outside the convex hull unresolved, and the nearest pass —
total wherever at least one valid sample exists — fills every remaining
one. -/
theorem fill_two_pass_complete (g : Grid) (h : 1 ≤ countValid g) :
    ∃ g1 g2, fill_missing g Method.linear = Except.ok g1 ∧
      fill_missing g1 Method.nearest = Except.ok g2 ∧
      countMissing g2 = 0 := by
  have hne : validSamples g ≠ [] := by
    intro hnil
    rw [countValid, hnil] at h
    simp at h
  refine ⟨fillRows (validSamples g) Method.linear 0 g,
    fillRows (validSamples (fillRows (validSamples g) Method.linear 0 g))
      Method.nearest 0 (fillRows (validSamples g) Method.linear 0 g), ?_, ?_, ?_⟩
  · simp [fill_missing, List.isEmpty_iff, hne]
  · have hne1 : validSamples (fillRows (validSamples g) Method.linear 0 g) ≠ [] :=
      gridSamples_fillRows_ne_nil (validSamples g) Method.linear g 0 hne
    simp [fill_missing, List.isEmpty_iff, hne1]
  · have hne1 : validSamples (fillRows (validSamples g) Method.linear 0 g) ≠ [] :=
      gridSamples_fillRows_ne_nil (validSamples g) Method.linear g 0 hne
    exact fillRows_nearest_total _ hne1 _ 0

/-- C1 witness: `[[some 1, none]]` has one valid cell; the two passes
produce a fully valid grid. -/
theorem fill_two_pass_complete_w :
    ∃ g1 g2, fill_missing [[some 1, none]] Method.linear = Except.ok g1 ∧
      fill_missing g1 Method.nearest = Except.ok g2 ∧
      countMissing g2 = 0 :=
  fill_two_pass_complete [[some 1, none]] (by decide)

end Task2
